import Mathlib

/-!
axmldec: input resolution and archive-member extraction.

A shallow embedding of `src/main.cpp` (`extract_file`, `write_xml`,
`process_file`, `main`) together with the properties of the archive
lifecycle, the read loop, the first-byte dispatcher and the top-level error
handler.

The external collaborators (the minizip primitives `unz*`, `jitana::read_axml`,
`boost::property_tree::read_xml` / `write_xml`, `boost::program_options`) are
not part of the source file; they appear as oracles: their answers are data
and the functions below are functions of those answers.

Conventions.
* `size_t` and `ZPOS64_T` values are natural numbers; the buffer sizes and the
  offsets `i * read_size` of a run stay far below `2 ^ 64`, so no wrap-around
  is modelled.
* The construction `std::vector<char> content(n)` (line 82) either succeeds
  or throws (`std::length_error` when `n` exceeds `max_size()`,
  `std::bad_alloc` when the memory cannot be had). Which of the two happens is
  the answer `alloc n` of the standard library, an oracle like the others.
* The answers of `unzReadCurrentFile` are a finite list. The read loop ends at
  the first answer that is not positive; a list of positive answers only does
  not determine the end of the run, and the embedding gives `none` for it
  (`extract_file_eq_none_iff`).
* The library stores the bytes of an answer at the address it was given. The
  vector is tracked as a list: bytes stored past its end do not appear in it,
  and every read call records the offset it was given, so that the bounds of
  each store can be stated.
-/

namespace Axmldec

/-- A `char` of the program, kept as a natural number. -/
abbrev Byte := Nat

/-- Return code `UNZ_OK` of the archive library (`unzip.h`). -/
def UNZ_OK : Int := 0

/-- The chunk size of the read loop: `constexpr size_t read_size = 1 << 15`. -/
def read_size : Nat := 1 <<< 15

/-- Exceptions that reach `main`, by the handler that catches them:
`std::runtime_error` (thrown by `extract_file`), `std::ios::failure` (caught by
the first handler of `main`), and any other `std::exception`. -/
inductive Exception where
  | runtime_error (what : String)
  | ios_failure (what : String)
  | exception (what : String)
  deriving DecidableEq

/-- The message `e.what()`. -/
def Exception.what : Exception → String
  | .runtime_error m => m
  | .ios_failure m => m
  | .exception m => m

deriving instance DecidableEq for Except

/-- One answer of `unzReadCurrentFile(apk, buf, read_size)`: the returned `int`
and the bytes the library stored at `buf`. -/
structure ReadAnswer where
  len : Int
  data : List Byte
  deriving DecidableEq

/-- The answers of the archive library for one `(path, entry)`: whether
`unzOpen` returns a handle, the return codes of `unzLocateFile`,
`unzOpenCurrentFile` and `unzGetCurrentFileInfo64`, the field
`info.uncompressed_size`, and the answers of the successive
`unzReadCurrentFile` calls. -/
structure Archive where
  unzOpen : Bool
  unzLocateFile : Int
  unzOpenCurrentFile : Int
  unzGetCurrentFileInfo64 : Int
  uncompressed_size : Nat
  unzReadCurrentFile : List ReadAnswer
  deriving DecidableEq

/-- A call of an archive-library primitive. A read records the offset into
`content` whose address was passed, and the answer it got. -/
inductive Call where
  | unzOpen (path : String)
  | unzLocateFile (entry : String)
  | unzOpenCurrentFile
  | unzGetCurrentFileInfo64
  | unzReadCurrentFile (offset : Nat) (answer : ReadAnswer)
  | unzCloseCurrentFile
  | unzClose
  deriving DecidableEq

/-- Effect on the vector `buf` of the library storing `data` at
`buf.data() + offset`: the positions `offset ≤ i < offset + data.length` that
lie inside the vector take the bytes of `data`; bytes addressed past the end of
the vector are not part of it. -/
def writeAt (buf : List Byte) (offset : Nat) (data : List Byte) : List Byte :=
  buf.take offset ++ data.take (buf.length - offset) ++ buf.drop (offset + data.length)

/-- The read loop of `extract_file` (lines 84-94), started at `offset` with the
remaining answers of `unzReadCurrentFile`. It gives the outcome and the calls
made from here on, the two closing calls included. `none`: every remaining
answer was positive, so the loop asks for an answer the oracle does not hold. -/
def read_loop (entry : String) :
    List ReadAnswer → Nat → List Byte → Option (Except Exception (List Byte) × List Call)
  | [], _, _ => none
  | r :: rs, offset, content =>
    let content1 := writeAt content offset r.data
    if r.len = 0 then
      some (.ok content1,
        [.unzReadCurrentFile offset r, .unzCloseCurrentFile, .unzClose])
    else if r.len < 0 then
      some (.error (.runtime_error ("failed to read file " ++ entry ++ " in APK")),
        [.unzReadCurrentFile offset r, .unzCloseCurrentFile, .unzClose])
    else
      (read_loop entry rs (offset + read_size) content1).map
        (fun p => (p.1, Call.unzReadCurrentFile offset r :: p.2))

/-- The function `extract_file(path, entry)` (lines 57-100) as a function of
the library answers `a` and of the answer `alloc` of the vector constructor
(`none` when `std::vector<char> content(n)` succeeds, the exception when it
throws): the returned vector or the exception thrown, and the trace of
primitive calls in the order they are made. An exception of the constructor
leaves the function at line 82, where no close call is made. -/
def extract_file (alloc : Nat → Option Exception) (a : Archive) (path entry : String) :
    Option (Except Exception (List Byte) × List Call) :=
  if a.unzOpen = false then
    some (.error (.runtime_error "not an APK file"), [.unzOpen path])
  else if a.unzLocateFile ≠ UNZ_OK then
    some (.error (.runtime_error (entry ++ " is not found in APK")),
      [.unzOpen path, .unzLocateFile entry, .unzClose])
  else if a.unzOpenCurrentFile ≠ UNZ_OK then
    some (.error (.runtime_error ("failed to open " ++ entry ++ " in APK")),
      [.unzOpen path, .unzLocateFile entry, .unzOpenCurrentFile, .unzClose])
  else if a.unzGetCurrentFileInfo64 ≠ UNZ_OK then
    some (.error (.runtime_error ("failed to open " ++ entry ++ " in APK")),
      [.unzOpen path, .unzLocateFile entry, .unzOpenCurrentFile,
        .unzGetCurrentFileInfo64, .unzCloseCurrentFile, .unzClose])
  else
    match alloc a.uncompressed_size with
    | some e =>
      some (.error e,
        [.unzOpen path, .unzLocateFile entry, .unzOpenCurrentFile,
          .unzGetCurrentFileInfo64])
    | none =>
      (read_loop entry a.unzReadCurrentFile 0 (List.replicate a.uncompressed_size 0)).map
        (fun p => (p.1, [Call.unzOpen path, .unzLocateFile entry, .unzOpenCurrentFile,
          .unzGetCurrentFileInfo64] ++ p.2))

/-- The vector constructor of a standard library whose `max_size()` is
`max_size`: a larger size throws `std::length_error`, any other size is
allocated. -/
def vector_alloc (max_size : Nat) (n : Nat) : Option Exception :=
  if n ≤ max_size then none
  else some (.exception "cannot create std::vector larger than max_size()")

/-- The value of `std::vector<char>::max_size()` on the common 64-bit
implementations: `PTRDIFF_MAX`. -/
def PTRDIFF_MAX : Nat := 2 ^ 63 - 1

/-- The read calls made for consecutive answers, the first at `offset`, each
next one `read_size` further (`offset += read_size`). -/
def readCalls : Nat → List ReadAnswer → List Call
  | _, [] => []
  | offset, r :: rs => .unzReadCurrentFile offset r :: readCalls (offset + read_size) rs

/-- The vector after the library stored the given answers, the first at
`offset`, each next one `read_size` further. -/
def fill : Nat → List Byte → List ReadAnswer → List Byte
  | _, content, [] => content
  | offset, content, r :: rs => fill (offset + read_size) (writeAt content offset r.data) rs

/-- The whole lifecycle for the answers `a`: open, locate, open-member,
get-info, then one read per answer the library holds. -/
def lifecycle (a : Archive) (path entry : String) : List Call :=
  [.unzOpen path, .unzLocateFile entry, .unzOpenCurrentFile, .unzGetCurrentFileInfo64]
    ++ readCalls 0 a.unzReadCurrentFile

/-- Whether the run goes on to the next lifecycle step after this call: the
set-up calls when they succeed, a read when it returns a positive length. -/
def Archive.continues (a : Archive) : Call → Bool
  | .unzOpen _ => a.unzOpen
  | .unzLocateFile _ => decide (a.unzLocateFile = UNZ_OK)
  | .unzOpenCurrentFile => decide (a.unzOpenCurrentFile = UNZ_OK)
  | .unzGetCurrentFileInfo64 => decide (a.unzGetCurrentFileInfo64 = UNZ_OK)
  | .unzReadCurrentFile _ r => decide (0 < r.len)
  | .unzCloseCurrentFile => true
  | .unzClose => true

/-- The close calls that apply after the steps made: `unzCloseCurrentFile` when
the member was opened (open-member was called and succeeded), `unzClose` when
the archive was opened. -/
def closes (a : Archive) (steps : List Call) : List Call :=
  (if Call.unzOpenCurrentFile ∈ steps ∧ a.unzOpenCurrentFile = UNZ_OK
    then [.unzCloseCurrentFile] else [])
  ++ (if a.unzOpen = true then [.unzClose] else [])

/-- The answers of `unzReadCurrentFile` for a member delivered as the chunks
`cs`: each chunk is stored and its length returned, then a zero-length read
reports the end of the member. -/
def chunkAnswers (cs : List (List Byte)) : List ReadAnswer :=
  cs.map (fun c => ⟨(c.length : Int), c⟩) ++ [⟨0, []⟩]

/-! ## Streams, the dispatcher and `main` -/

/-- The part of a `std::istream` the program depends on: the bytes of its
source, the read position, and the state bits `eofbit` and `failbit`. -/
structure IStream where
  data : List Byte
  pos : Nat
  eofbit : Bool
  failbit : Bool
  deriving DecidableEq

/-- The test `good()`. -/
def IStream.good (s : IStream) : Bool := !s.eofbit && !s.failbit

/-- The call `is.peek()`: the value returned (`none` for `Traits::eof()`) and
the stream afterwards. On a good stream it returns the byte at the read
position without extracting it, or sets `eofbit` at the end of the data; on a
stream that is not good the sentry sets `failbit`. -/
def IStream.peek (s : IStream) : Option Byte × IStream :=
  if s.good then
    match s.data[s.pos]? with
    | some b => (some b, s)
    | none => (none, { s with eofbit := true })
  else (none, { s with failbit := true })

/-- The parser flag `boost::property_tree::xml_parser::trim_whitespace`. -/
def trim_whitespace : Nat := 4

/-- The stream `boost::property_tree::write_xml` writes to. -/
inductive Sink where
  | cout
  | ofstream (path : String)
  deriving DecidableEq

/-- What `process_file` does that is visible outside it, in order: the call of
`extract_file` with the library calls it made, the calls of the two decoders
with the stream handed to them, the opening of the output file, and the call
of the writer with its destination and indentation settings. -/
inductive Event (Tree : Type) where
  | extract_file (path entry : String) (calls : List Call)
  | read_axml (is : IStream)
  | read_xml (is : IStream) (flags : Nat)
  | ofstream_open (path : String)
  | write_xml (os : Sink) (pt : Tree) (indent_char : Char) (indent_count : Nat)
  deriving DecidableEq

/-- Whether the event belongs to `write_xml`: opening the output file or
writing the tree. -/
def Event.isWrite {Tree : Type} : Event Tree → Bool
  | .ofstream_open _ => true
  | .write_xml _ _ _ _ => true
  | _ => false

/-- The surroundings of a run: the file the input path opens (`none` when
`std::ifstream::open` fails), the bytes on standard input, the answers of the
archive library for a path and an entry, the answer of the vector constructor
for a size, and the three external functions
`jitana::read_axml`, `boost::property_tree::read_xml` (with its flags) and
`boost::property_tree::write_xml`, each returning or throwing. -/
structure Env (Tree : Type) where
  file : String → Option (List Byte)
  stdin : List Byte
  archive : String → String → Archive
  alloc : Nat → Option Exception
  read_axml : IStream → Except Exception Tree
  read_xml : IStream → Nat → Except Exception Tree
  boost_write_xml : Sink → Tree → Except Exception Unit

/-- The function `write_xml(path, pt)` (lines 102-121): the output is
`std::cout`, or the file `path` opened by `ofs.open(path)` when `path` is not
empty; the tree is written with indentation `(' ', 2)`. -/
def write_xml {Tree : Type} (env : Env Tree) (path : String) (pt : Tree) :
    Except Exception Unit × List (Event Tree) :=
  if path ≠ "" then
    (env.boost_write_xml (.ofstream path) pt,
      [.ofstream_open path, .write_xml (.ofstream path) pt ' ' 2])
  else
    (env.boost_write_xml .cout pt, [.write_xml .cout pt ' ' 2])

/-- The input stream of `process_file` (lines 131-142): `std::cin`, or the
file stream opened in binary mode when `inpath` is neither empty nor `"-"`; a
file that cannot be opened leaves the stream with `failbit` set. -/
def open_input {Tree : Type} (env : Env Tree) (inpath : String) : IStream :=
  if inpath ≠ "" ∧ inpath ≠ "-" then
    match env.file inpath with
    | some bytes => ⟨bytes, 0, false, false⟩
    | none => ⟨[], 0, false, true⟩
  else ⟨env.stdin, 0, false, false⟩

/-- Lines 143-153 of `process_file`: the tree loaded, or the exception thrown,
and the events so far. `none` when `extract_file` does not finish. -/
def load {Tree : Type} (env : Env Tree) (inpath entry : String) :
    Option (Except Exception Tree × List (Event Tree)) :=
  let p1 := (open_input env inpath).peek
  if p1.1 = some 0x50 then
    match extract_file env.alloc (env.archive inpath entry) inpath entry with
    | none => none
    | some (.error e, calls) => some (.error e, [.extract_file inpath entry calls])
    | some (.ok content, calls) =>
      let ims : IStream := ⟨content, 0, false, false⟩
      some (env.read_axml ims, [.extract_file inpath entry calls, .read_axml ims])
  else
    let p2 := p1.2.peek
    if p2.1 = some 0x03 then
      some (env.read_axml p2.2, [.read_axml p2.2])
    else
      some (env.read_xml p2.2 trim_whitespace, [.read_xml p2.2 trim_whitespace])

/-- The function `process_file(inpath, entry, outpath)` (lines 123-157): load
the tree, then write it with `write_xml`; an exception ends the function where
it is thrown. -/
def process_file {Tree : Type} (env : Env Tree) (inpath entry outpath : String) :
    Option (Except Exception Unit × List (Event Tree)) :=
  match load env inpath entry with
  | none => none
  | some (.error e, evs) => some (.error e, evs)
  | some (.ok pt, evs) =>
    let w := write_xml env outpath pt
    some (w.1, evs ++ w.2)

/-- The parsed command line (`po::variables_map`): the counts of `help` and
`version` as booleans, and the values of `input`, `entry` and `output`. -/
structure variables_map where
  help : Bool
  version : Bool
  input : Option String
  entry : Option String
  output : Option String

/-- What `main` itself produces: its return value and the text it writes to
`std::cout` and `std::cerr`. -/
structure MainResult where
  exit_code : Int
  cout : String
  cerr : String
  deriving DecidableEq

/-- The two handlers of `main` (lines 213-220). -/
def handler : Exception → MainResult
  | .ios_failure _ => ⟨1, "", "error: failed to open the input file\n"⟩
  | e => ⟨1, "", "error: " ++ e.what ++ "\n"⟩

/-- The function `main` (lines 159-221) as a function of the outcome `parsed`
of the command-line parsing (`po::store` / `po::notify`, which may throw), the
rendered option description `desc` and the version text `AXMLDEC_VERSION`.
Reaching the end of `main` returns 0. -/
def main {Tree : Type} (env : Env Tree) (desc AXMLDEC_VERSION : String)
    (parsed : Except Exception variables_map) : Option (MainResult × List (Event Tree)) :=
  match parsed with
  | .error e => some (handler e, [])
  | .ok vmap =>
    if vmap.help then some (⟨0, desc, ""⟩, [])
    else if vmap.version then some (⟨0, AXMLDEC_VERSION ++ "\n", ""⟩, [])
    else
      let inpath := vmap.input.getD ""
      let entry := vmap.entry.getD "AndroidManifest.xml"
      let outpath := vmap.output.getD ""
      match process_file env inpath entry outpath with
      | none => none
      | some (.error e, evs) => some (handler e, evs)
      | some (.ok _, evs) => some (⟨0, "", ""⟩, evs)

/-- An error `e` reaches `main`: it is thrown by the command-line parsing, or
by `process_file` when neither help nor version was requested. -/
def reaches_main {Tree : Type} (env : Env Tree) (parsed : Except Exception variables_map)
    (e : Exception) : Prop :=
  parsed = .error e ∨
  ∃ vmap evs, parsed = .ok vmap ∧ vmap.help = false ∧ vmap.version = false ∧
    process_file env (vmap.input.getD "") (vmap.entry.getD "AndroidManifest.xml")
      (vmap.output.getD "") = some (.error e, evs)

/-- Sample surroundings, with trees kept as numbers: a text file, a binary
document on which the decoder throws `std::ios::failure`, an archive whose
library answers say the entry is absent, and an empty standard input. -/
def sampleEnv : Env Nat where
  file := fun path =>
    if path = "in.xml" then some [60, 97, 47, 62]
    else if path = "in.axml" then some [3, 0, 8, 0]
    else if path = "in.apk" then some [80, 75, 3, 4]
    else none
  stdin := []
  archive := fun _ _ => ⟨true, -100, 0, 0, 0, []⟩
  alloc := vector_alloc PTRDIFF_MAX
  read_axml := fun _ => .error (.ios_failure "basic_ios::clear")
  read_xml := fun is _ => if is.data = [] then .error (.runtime_error "read error") else .ok 1
  boost_write_xml := fun _ _ => .ok ()

/-- A member delivered in two chunks: a first chunk that fills a whole
`read_size` slot and a last chunk of two bytes. -/
def twoChunks : List (List Byte) := [List.replicate read_size 65, [66, 67]]

/-- Library answers for a member of declared size `read_size + 2` delivered as
`twoChunks`; after the zero-length read the library would answer an error. -/
def twoChunkArchive : Archive :=
  ⟨true, 0, 0, 0, read_size + 2, chunkAnswers twoChunks ++ [⟨-1, []⟩]⟩

/-! ## The read loop -/

theorem length_writeAt (buf : List Byte) (offset : Nat) (data : List Byte) :
    (writeAt buf offset data).length = buf.length := by
  simp only [writeAt, List.length_append, List.length_take, List.length_drop]
  omega

theorem writeAt_nil (buf : List Byte) (offset : Nat) : writeAt buf offset [] = buf := by
  simp [writeAt]

theorem length_fill (rs : List ReadAnswer) (offset : Nat) (content : List Byte) :
    (fill offset content rs).length = content.length := by
  induction rs generalizing offset content with
  | nil => rfl
  | cons r rs ih => simp [fill, ih, length_writeAt]

theorem readCalls_append (xs ys : List ReadAnswer) (offset : Nat) :
    readCalls offset (xs ++ ys)
      = readCalls offset xs ++ readCalls (offset + xs.length * read_size) ys := by
  induction xs generalizing offset with
  | nil => simp [readCalls]
  | cons x xs ih =>
    rw [List.cons_append, readCalls, readCalls, ih, List.length_cons, List.cons_append]
    congr 3
    ring

theorem mem_readCalls {c : Call} {offset : Nat} {rs : List ReadAnswer}
    (h : c ∈ readCalls offset rs) : ∃ o r, r ∈ rs ∧ c = .unzReadCurrentFile o r := by
  induction rs generalizing offset with
  | nil => simp [readCalls] at h
  | cons x xs ih =>
    simp only [readCalls, List.mem_cons] at h
    rcases h with h | h
    · exact ⟨offset, x, by simp, h⟩
    · obtain ⟨o, r, hr, hc⟩ := ih h
      exact ⟨o, r, by simp [hr], hc⟩

/-- Running the loop on positive answers followed by a non-positive one: the
loop stops at that answer, whatever answers the oracle holds after it. -/
theorem read_loop_eq (entry : String) (pos : List ReadAnswer) (r : ReadAnswer)
    (rest : List ReadAnswer) (offset : Nat) (content : List Byte)
    (hpos : ∀ x ∈ pos, 0 < x.len) (hr : r.len ≤ 0) :
    read_loop entry (pos ++ r :: rest) offset content
      = some (if r.len = 0 then .ok (fill offset content (pos ++ [r]))
              else .error (.runtime_error ("failed to read file " ++ entry ++ " in APK")),
          readCalls offset (pos ++ [r]) ++ [.unzCloseCurrentFile, .unzClose]) := by
  induction pos generalizing offset content with
  | nil =>
    by_cases h0 : r.len = 0
    · simp [read_loop, h0, fill, readCalls]
    · have hneg : r.len < 0 := by omega
      simp [read_loop, h0, hneg, readCalls]
  | cons x xs ih =>
    have hx : 0 < x.len := hpos x (by simp)
    have h0 : ¬ x.len = 0 := by omega
    have hneg : ¬ x.len < 0 := by omega
    have ih1 := ih (offset + read_size) (writeAt content offset x.data)
      (fun y hy => hpos y (by simp [hy]))
    rw [List.cons_append, read_loop]
    simp only [h0, hneg, if_false, ih1, Option.map_some']
    rw [List.cons_append, fill, readCalls, List.cons_append]

/-- Every finished run of the loop consumed positive answers followed by one
non-positive answer. -/
theorem read_loop_some (entry : String) (rs : List ReadAnswer) (offset : Nat)
    (content : List Byte) (p : Except Exception (List Byte) × List Call)
    (h : read_loop entry rs offset content = some p) :
    ∃ pos r rest, rs = pos ++ r :: rest ∧ (∀ x ∈ pos, 0 < x.len) ∧ r.len ≤ 0 := by
  induction rs generalizing offset content p with
  | nil => simp [read_loop] at h
  | cons x xs ih =>
    by_cases hx : x.len ≤ 0
    · exact ⟨[], x, xs, rfl, by simp, hx⟩
    · have h0 : ¬ x.len = 0 := by omega
      have hneg : ¬ x.len < 0 := by omega
      simp only [read_loop, h0, hneg, if_false, Option.map_eq_some'] at h
      obtain ⟨q, hq, _⟩ := h
      obtain ⟨pos, r, rest, hrs, hpos, hr⟩ := ih _ _ _ hq
      refine ⟨x :: pos, r, rest, by simp [hrs], ?_, hr⟩
      intro y hy
      rcases List.mem_cons.1 hy with hy | hy
      · subst hy; omega
      · exact hpos y hy

/-! ## The shape of every finished run of `extract_file` -/

/-- The six exits of `extract_file`, with the outcome and the trace of each. -/
theorem extract_file_cases (alloc : Nat → Option Exception) (a : Archive)
    (path entry : String) (p : Except Exception (List Byte) × List Call)
    (h : extract_file alloc a path entry = some p) :
    (a.unzOpen = false ∧
      p = (.error (.runtime_error "not an APK file"), [.unzOpen path])) ∨
    (a.unzOpen = true ∧ a.unzLocateFile ≠ UNZ_OK ∧
      p = (.error (.runtime_error (entry ++ " is not found in APK")),
        [.unzOpen path, .unzLocateFile entry, .unzClose])) ∨
    (a.unzOpen = true ∧ a.unzLocateFile = UNZ_OK ∧ a.unzOpenCurrentFile ≠ UNZ_OK ∧
      p = (.error (.runtime_error ("failed to open " ++ entry ++ " in APK")),
        [.unzOpen path, .unzLocateFile entry, .unzOpenCurrentFile, .unzClose])) ∨
    (a.unzOpen = true ∧ a.unzLocateFile = UNZ_OK ∧ a.unzOpenCurrentFile = UNZ_OK ∧
      a.unzGetCurrentFileInfo64 ≠ UNZ_OK ∧
      p = (.error (.runtime_error ("failed to open " ++ entry ++ " in APK")),
        [.unzOpen path, .unzLocateFile entry, .unzOpenCurrentFile,
          .unzGetCurrentFileInfo64, .unzCloseCurrentFile, .unzClose])) ∨
    (a.unzOpen = true ∧ a.unzLocateFile = UNZ_OK ∧ a.unzOpenCurrentFile = UNZ_OK ∧
      a.unzGetCurrentFileInfo64 = UNZ_OK ∧
      ∃ e, alloc a.uncompressed_size = some e ∧
        p = (.error e,
          [.unzOpen path, .unzLocateFile entry, .unzOpenCurrentFile,
            .unzGetCurrentFileInfo64])) ∨
    (a.unzOpen = true ∧ a.unzLocateFile = UNZ_OK ∧ a.unzOpenCurrentFile = UNZ_OK ∧
      a.unzGetCurrentFileInfo64 = UNZ_OK ∧ alloc a.uncompressed_size = none ∧
      ∃ pos r rest, a.unzReadCurrentFile = pos ++ r :: rest ∧ (∀ x ∈ pos, 0 < x.len) ∧
        r.len ≤ 0 ∧
        p = (if r.len = 0 then
              .ok (fill 0 (List.replicate a.uncompressed_size 0) (pos ++ [r]))
             else .error (.runtime_error ("failed to read file " ++ entry ++ " in APK")),
            [.unzOpen path, .unzLocateFile entry, .unzOpenCurrentFile,
              .unzGetCurrentFileInfo64] ++ readCalls 0 (pos ++ [r])
              ++ [.unzCloseCurrentFile, .unzClose])) := by
  unfold extract_file at h
  by_cases h1 : a.unzOpen = false
  · left
    rw [if_pos h1] at h
    exact ⟨h1, (Option.some.inj h).symm⟩
  have h1t : a.unzOpen = true := by simpa using h1
  rw [if_neg h1] at h
  right
  by_cases h2 : a.unzLocateFile ≠ UNZ_OK
  · left
    rw [if_pos h2] at h
    exact ⟨h1t, h2, (Option.some.inj h).symm⟩
  rw [if_neg h2] at h
  have h2t : a.unzLocateFile = UNZ_OK := not_not.1 h2
  right
  by_cases h3 : a.unzOpenCurrentFile ≠ UNZ_OK
  · left
    rw [if_pos h3] at h
    exact ⟨h1t, h2t, h3, (Option.some.inj h).symm⟩
  rw [if_neg h3] at h
  have h3t : a.unzOpenCurrentFile = UNZ_OK := not_not.1 h3
  right
  by_cases h4 : a.unzGetCurrentFileInfo64 ≠ UNZ_OK
  · left
    rw [if_pos h4] at h
    exact ⟨h1t, h2t, h3t, h4, (Option.some.inj h).symm⟩
  rw [if_neg h4] at h
  have h4t : a.unzGetCurrentFileInfo64 = UNZ_OK := not_not.1 h4
  right
  cases hal : alloc a.uncompressed_size with
  | some e =>
    left
    rw [hal] at h
    exact ⟨h1t, h2t, h3t, h4t, e, rfl, (Option.some.inj h).symm⟩
  | none =>
    right
    rw [hal] at h
    obtain ⟨q, hq, hp⟩ := Option.map_eq_some'.1 h
    obtain ⟨pos, r, rest, hrs, hpos, hr⟩ := read_loop_some _ _ _ _ _ hq
    refine ⟨h1t, h2t, h3t, h4t, rfl, pos, r, rest, hrs, hpos, hr, ?_⟩
    rw [hrs, read_loop_eq entry pos r rest 0 _ hpos hr] at hq
    rw [← hp, ← Option.some.inj hq]
    simp

/-- The run of `extract_file` when the four set-up calls succeed, the buffer
is allocated and the reads are positive answers followed by a non-positive
one. -/
theorem extract_file_reads (alloc : Nat → Option Exception) (a : Archive)
    (path entry : String)
    (pos : List ReadAnswer) (r : ReadAnswer) (rest : List ReadAnswer)
    (h1 : a.unzOpen = true) (h2 : a.unzLocateFile = UNZ_OK)
    (h3 : a.unzOpenCurrentFile = UNZ_OK) (h4 : a.unzGetCurrentFileInfo64 = UNZ_OK)
    (halloc : alloc a.uncompressed_size = none)
    (hrs : a.unzReadCurrentFile = pos ++ r :: rest)
    (hpos : ∀ x ∈ pos, 0 < x.len) (hr : r.len ≤ 0) :
    extract_file alloc a path entry
      = some (if r.len = 0 then
              .ok (fill 0 (List.replicate a.uncompressed_size 0) (pos ++ [r]))
             else .error (.runtime_error ("failed to read file " ++ entry ++ " in APK")),
            [.unzOpen path, .unzLocateFile entry, .unzOpenCurrentFile,
              .unzGetCurrentFileInfo64] ++ readCalls 0 (pos ++ [r])
              ++ [.unzCloseCurrentFile, .unzClose]) := by
  unfold extract_file
  rw [if_neg (by simp [h1]), if_neg (by simp [h2]), if_neg (by simp [h3]),
    if_neg (by simp [h4]), halloc]
  simp only []
  rw [hrs, read_loop_eq entry pos r rest 0 _ hpos hr]
  simp

/-- The only runs of `extract_file` that do not finish are those whose set-up
calls all succeed, whose buffer is allocated and whose reads all return a
positive length. -/
theorem extract_file_eq_none_iff (alloc : Nat → Option Exception) (a : Archive)
    (path entry : String) :
    extract_file alloc a path entry = none ↔
      (a.unzOpen = true ∧ a.unzLocateFile = UNZ_OK ∧ a.unzOpenCurrentFile = UNZ_OK ∧
        a.unzGetCurrentFileInfo64 = UNZ_OK ∧ alloc a.uncompressed_size = none ∧
        ∀ r ∈ a.unzReadCurrentFile, 0 < r.len) := by
  have hloop : ∀ (rs : List ReadAnswer) (offset : Nat) (content : List Byte),
      read_loop entry rs offset content = none ↔ ∀ r ∈ rs, 0 < r.len := by
    intro rs
    induction rs with
    | nil => intro offset content; simp [read_loop]
    | cons x xs ih =>
      intro offset content
      by_cases h0 : x.len = 0
      · simp [read_loop, h0]
      · by_cases hneg : x.len < 0
        · simp only [read_loop, h0, hneg, if_false, if_true, List.mem_cons, forall_eq_or_imp]
          constructor
          · intro h; cases h
          · intro h; omega
        · have hx : 0 < x.len := by omega
          simp [read_loop, h0, hneg, ih, hx]
  unfold extract_file
  by_cases h1 : a.unzOpen = false
  · simp [h1]
  by_cases h2 : a.unzLocateFile ≠ UNZ_OK
  · simp [h1, h2]
  by_cases h3 : a.unzOpenCurrentFile ≠ UNZ_OK
  · simp [h1, h2, h3]
  by_cases h4 : a.unzGetCurrentFileInfo64 ≠ UNZ_OK
  · simp [h1, h2, h3, h4]
  have h1t : a.unzOpen = true := by simpa using h1
  rw [if_neg h1, if_neg h2, if_neg h3, if_neg h4]
  cases hal : alloc a.uncompressed_size with
  | some e => simp
  | none =>
    simp only []
    rw [Option.map_eq_none', hloop]
    simp [h1t, not_not.1 h2, not_not.1 h3, not_not.1 h4]

theorem count_readCalls_unzClose (offset : Nat) (rs : List ReadAnswer) :
    (readCalls offset rs).count .unzClose = 0 := by
  rw [List.count_eq_zero]
  intro h
  obtain ⟨o, r, _, hc⟩ := mem_readCalls h
  cases hc

theorem count_readCalls_unzCloseCurrentFile (offset : Nat) (rs : List ReadAnswer) :
    (readCalls offset rs).count .unzCloseCurrentFile = 0 := by
  rw [List.count_eq_zero]
  intro h
  obtain ⟨o, r, _, hc⟩ := mem_readCalls h
  cases hc

/-! ## Release of the handles -/

/-- On every finished run of `extract_file` in which the vector constructor
does not throw, the trace holds exactly one `unzClose` when `unzOpen`
succeeded and none when it failed, and exactly one `unzCloseCurrentFile` when
`unzOpenCurrentFile` was called and succeeded, and none otherwise. -/
theorem releases_once_of_alloc (alloc : Nat → Option Exception) (a : Archive)
    (path entry : String) (res : Except Exception (List Byte)) (tr : List Call)
    (halloc : alloc a.uncompressed_size = none)
    (h : extract_file alloc a path entry = some (res, tr)) :
    tr.count .unzClose = (if a.unzOpen = true then 1 else 0) ∧
    tr.count .unzCloseCurrentFile
      = (if Call.unzOpenCurrentFile ∈ tr ∧ a.unzOpenCurrentFile = UNZ_OK then 1 else 0) := by
  rcases extract_file_cases alloc a path entry _ h with
    ⟨h1, hp⟩ | ⟨h1, h2, hp⟩ | ⟨h1, h2, h3, hp⟩ | ⟨h1, h2, h3, h4, hp⟩ |
    ⟨h1, h2, h3, h4, e, he, hp⟩ |
    ⟨h1, h2, h3, h4, -, pos, r, rest, hrs, hpos, hr, hp⟩
  · obtain ⟨-, rfl⟩ := Prod.mk.inj hp
    simp [h1, List.count_cons]
  · obtain ⟨-, rfl⟩ := Prod.mk.inj hp
    simp [h1, List.count_cons]
  · obtain ⟨-, rfl⟩ := Prod.mk.inj hp
    simp [h1, h3, List.count_cons]
  · obtain ⟨-, rfl⟩ := Prod.mk.inj hp
    simp [h1, h3, List.count_cons]
  · rw [halloc] at he
    cases he
  · obtain ⟨-, rfl⟩ := Prod.mk.inj hp
    simp [h1, h3, List.count_cons, count_readCalls_unzClose,
      count_readCalls_unzCloseCurrentFile]

/-- C1 fails on the code. For a member whose declared uncompressed size is
`2 ^ 63`, above the `max_size()` of the vector, the four set-up calls succeed
and the constructor on line 82 throws: `extract_file` throws with the trace
open, locate, open-member, get-info. `unzOpen` and `unzOpenCurrentFile`
succeeded, and the trace holds no `unzClose` and no `unzCloseCurrentFile`. -/
theorem extract_file_alloc_leak :
    extract_file (vector_alloc PTRDIFF_MAX) ⟨true, 0, 0, 0, 2 ^ 63, [⟨0, []⟩]⟩
        "in.apk" "AndroidManifest.xml"
      = some (.error (.exception "cannot create std::vector larger than max_size()"),
          [.unzOpen "in.apk", .unzLocateFile "AndroidManifest.xml", .unzOpenCurrentFile,
            .unzGetCurrentFileInfo64]) ∧
    (⟨true, 0, 0, 0, 2 ^ 63, [⟨0, []⟩]⟩ : Archive).unzOpen = true ∧
    (⟨true, 0, 0, 0, 2 ^ 63, [⟨0, []⟩]⟩ : Archive).unzOpenCurrentFile = UNZ_OK ∧
    [Call.unzOpen "in.apk", .unzLocateFile "AndroidManifest.xml", .unzOpenCurrentFile,
      .unzGetCurrentFileInfo64].count .unzClose = 0 ∧
    [Call.unzOpen "in.apk", .unzLocateFile "AndroidManifest.xml", .unzOpenCurrentFile,
      .unzGetCurrentFileInfo64].count .unzCloseCurrentFile = 0 := by
  decide

/-! ## Length of the returned buffer -/

/-- C3. Whenever `extract_file` returns normally the returned buffer has the
declared uncompressed size, whatever number of chunks was read; and it returns
normally exactly when open, locate, open-member and get-info succeed, the
buffer is allocated, and the reads are positive-length answers followed by a
zero-length one. -/
theorem extract_file_length (alloc : Nat → Option Exception) (a : Archive)
    (path entry : String) :
    (∀ content tr, extract_file alloc a path entry = some (.ok content, tr) →
      content.length = a.uncompressed_size) ∧
    ((∃ content tr, extract_file alloc a path entry = some (.ok content, tr)) ↔
      (a.unzOpen = true ∧ a.unzLocateFile = UNZ_OK ∧ a.unzOpenCurrentFile = UNZ_OK ∧
        a.unzGetCurrentFileInfo64 = UNZ_OK ∧ alloc a.uncompressed_size = none ∧
        ∃ pos z rest, a.unzReadCurrentFile = pos ++ z :: rest ∧
          (∀ x ∈ pos, 0 < x.len) ∧ z.len = 0)) := by
  constructor
  · intro content tr h
    rcases extract_file_cases alloc a path entry _ h with
      ⟨h1, hp⟩ | ⟨h1, h2, hp⟩ | ⟨h1, h2, h3, hp⟩ | ⟨h1, h2, h3, h4, hp⟩ |
      ⟨h1, h2, h3, h4, e, he, hp⟩ |
      ⟨h1, h2, h3, h4, hal, pos, r, rest, hrs, hpos, hr, hp⟩
    · cases (Prod.mk.inj hp).1
    · cases (Prod.mk.inj hp).1
    · cases (Prod.mk.inj hp).1
    · cases (Prod.mk.inj hp).1
    · cases (Prod.mk.inj hp).1
    · have hc := (Prod.mk.inj hp).1
      by_cases h0 : r.len = 0
      · rw [if_pos h0] at hc
        rw [Except.ok.inj hc, length_fill, List.length_replicate]
      · rw [if_neg h0] at hc
        cases hc
  · constructor
    · rintro ⟨content, tr, h⟩
      rcases extract_file_cases alloc a path entry _ h with
        ⟨h1, hp⟩ | ⟨h1, h2, hp⟩ | ⟨h1, h2, h3, hp⟩ | ⟨h1, h2, h3, h4, hp⟩ |
        ⟨h1, h2, h3, h4, e, he, hp⟩ |
        ⟨h1, h2, h3, h4, hal, pos, r, rest, hrs, hpos, hr, hp⟩
      · cases (Prod.mk.inj hp).1
      · cases (Prod.mk.inj hp).1
      · cases (Prod.mk.inj hp).1
      · cases (Prod.mk.inj hp).1
      · cases (Prod.mk.inj hp).1
      · have hc := (Prod.mk.inj hp).1
        by_cases h0 : r.len = 0
        · exact ⟨h1, h2, h3, h4, hal, pos, r, rest, hrs, hpos, h0⟩
        · rw [if_neg h0] at hc
          cases hc
    · rintro ⟨h1, h2, h3, h4, hal, pos, z, rest, hrs, hpos, hz⟩
      refine ⟨fill 0 (List.replicate a.uncompressed_size 0) (pos ++ [z]),
        [.unzOpen path, .unzLocateFile entry, .unzOpenCurrentFile,
          .unzGetCurrentFileInfo64] ++ readCalls 0 (pos ++ [z])
          ++ [.unzCloseCurrentFile, .unzClose], ?_⟩
      rw [extract_file_reads alloc a path entry pos z rest h1 h2 h3 h4 hal hrs hpos
        (le_of_eq hz), if_pos hz]

theorem extract_file_length_witness :
    [7, 8, 9].length
      = (⟨true, 0, 0, 0, 3, [⟨3, [7, 8, 9]⟩, ⟨0, []⟩]⟩ : Archive).uncompressed_size :=
  (extract_file_length (vector_alloc PTRDIFF_MAX)
      ⟨true, 0, 0, 0, 3, [⟨3, [7, 8, 9]⟩, ⟨0, []⟩]⟩ "a.apk" "e").1
    [7, 8, 9]
    [.unzOpen "a.apk", .unzLocateFile "e", .unzOpenCurrentFile, .unzGetCurrentFileInfo64,
      .unzReadCurrentFile 0 ⟨3, [7, 8, 9]⟩, .unzReadCurrentFile 32768 ⟨0, []⟩,
      .unzCloseCurrentFile, .unzClose] (by decide)

/-! ## A failing read -/

/-- C5. When the set-up calls succeed, the buffer is allocated, and the reads
are `k ≥ 0` positive-length answers followed by a negative-length one,
`extract_file` throws the read error
`"failed to read file " + entry + " in APK"` and returns no buffer; its trace
is the four set-up calls, the `k + 1` reads (none after the negative one,
whatever the library would have answered next), then `unzCloseCurrentFile`,
then `unzClose`, each exactly once. -/
theorem extract_file_read_error (alloc : Nat → Option Exception) (a : Archive)
    (path entry : String)
    (pos : List ReadAnswer) (r : ReadAnswer) (rest : List ReadAnswer)
    (h1 : a.unzOpen = true) (h2 : a.unzLocateFile = UNZ_OK)
    (h3 : a.unzOpenCurrentFile = UNZ_OK) (h4 : a.unzGetCurrentFileInfo64 = UNZ_OK)
    (halloc : alloc a.uncompressed_size = none)
    (hrs : a.unzReadCurrentFile = pos ++ r :: rest)
    (hpos : ∀ x ∈ pos, 0 < x.len) (hr : r.len < 0) :
    ∃ tr, extract_file alloc a path entry
        = some (.error (.runtime_error ("failed to read file " ++ entry ++ " in APK")), tr) ∧
      tr = [.unzOpen path, .unzLocateFile entry, .unzOpenCurrentFile,
              .unzGetCurrentFileInfo64] ++ readCalls 0 (pos ++ [r])
              ++ [.unzCloseCurrentFile, .unzClose] ∧
      (readCalls 0 (pos ++ [r])).length = pos.length + 1 ∧
      tr.count .unzCloseCurrentFile = 1 ∧ tr.count .unzClose = 1 := by
  have h0 : ¬ r.len = 0 := by omega
  refine ⟨_, ?_, rfl, ?_, ?_, ?_⟩
  · rw [extract_file_reads alloc a path entry pos r rest h1 h2 h3 h4 halloc hrs hpos
      (le_of_lt hr), if_neg h0]
  · have hlen : ∀ (rs : List ReadAnswer) (o : Nat), (readCalls o rs).length = rs.length := by
      intro rs
      induction rs with
      | nil => intro o; rfl
      | cons x xs ih => intro o; simp [readCalls, ih]
    simp [hlen]
  · simp [List.count_cons, count_readCalls_unzCloseCurrentFile]
  · simp [List.count_cons, count_readCalls_unzClose]

theorem extract_file_read_error_witness :
    ∃ tr, extract_file (vector_alloc PTRDIFF_MAX)
          ⟨true, 0, 0, 0, 5, [⟨3, [7, 8, 9]⟩, ⟨-1, []⟩, ⟨2, [1, 2]⟩]⟩ "a.apk" "e"
        = some (.error (.runtime_error ("failed to read file " ++ "e" ++ " in APK")), tr) ∧
      tr = [.unzOpen "a.apk", .unzLocateFile "e", .unzOpenCurrentFile,
              .unzGetCurrentFileInfo64] ++ readCalls 0 ([⟨3, [7, 8, 9]⟩] ++ [⟨-1, []⟩])
              ++ [.unzCloseCurrentFile, .unzClose] ∧
      (readCalls 0 ([⟨3, [7, 8, 9]⟩] ++ [⟨-1, []⟩])).length
        = [(⟨3, [7, 8, 9]⟩ : ReadAnswer)].length + 1 ∧
      tr.count .unzCloseCurrentFile = 1 ∧ tr.count .unzClose = 1 :=
  extract_file_read_error (vector_alloc PTRDIFF_MAX)
    ⟨true, 0, 0, 0, 5, [⟨3, [7, 8, 9]⟩, ⟨-1, []⟩, ⟨2, [1, 2]⟩]⟩ "a.apk" "e"
    [⟨3, [7, 8, 9]⟩] ⟨-1, []⟩ [⟨2, [1, 2]⟩] rfl rfl rfl rfl (by decide) rfl
    (by decide) (by decide)

/-! ## Order of the calls -/

theorem eq_of_append_cons_eq {α : Type} {x : α} {m s pre post : List α}
    (hm : x ∉ m) (hs : x ∉ s) (h : m ++ x :: s = pre ++ x :: post) :
    pre = m ∧ post = s := by
  induction m generalizing pre with
  | nil =>
    cases pre with
    | nil => simpa using h.symm
    | cons y ys =>
      simp only [List.nil_append, List.cons_append, List.cons.injEq] at h
      exact absurd (h.2 ▸ (by simp : x ∈ ys ++ x :: post)) hs
  | cons y ys ih =>
    cases pre with
    | nil =>
      simp only [List.nil_append, List.cons_append, List.cons.injEq] at h
      exact absurd (h.1 ▸ (by simp : y ∈ y :: ys)) hm
    | cons z zs =>
      simp only [List.cons_append, List.cons.injEq] at h
      obtain ⟨h1, h2⟩ := ih (fun hx => hm (by simp [hx])) h.2
      exact ⟨by rw [h.1, h1], h2⟩

theorem closes_last (steps cl : List Call)
    (h1 : Call.unzCloseCurrentFile ∉ steps) (h2 : Call.unzClose ∉ steps)
    (hcl : cl = [] ∨ cl = [.unzClose] ∨ cl = [.unzCloseCurrentFile, .unzClose]) :
    (∀ pre post, steps ++ cl = pre ++ .unzCloseCurrentFile :: post → post = [.unzClose]) ∧
    (∀ pre post, steps ++ cl = pre ++ .unzClose :: post → post = []) := by
  rcases hcl with rfl | rfl | rfl
  · constructor
    · intro pre post h
      exact absurd (by rw [List.append_nil] at h; rw [h]; simp) h1
    · intro pre post h
      exact absurd (by rw [List.append_nil] at h; rw [h]; simp) h2
  · constructor
    · intro pre post h
      have : Call.unzCloseCurrentFile ∈ steps ++ [Call.unzClose] := by rw [h]; simp
      simp [h1] at this
    · intro pre post h
      exact (eq_of_append_cons_eq h2 (by simp) h).2
  · constructor
    · intro pre post h
      exact (eq_of_append_cons_eq h1 (by simp) h).2
    · intro pre post h
      have h3 : Call.unzClose ∉ steps ++ [Call.unzCloseCurrentFile] := by simp [h2]
      have h4 : (steps ++ [Call.unzCloseCurrentFile]) ++ Call.unzClose :: []
          = pre ++ Call.unzClose :: post := by simpa using h
      exact (eq_of_append_cons_eq h3 (by simp) h4).2

/-- On every finished run of `extract_file` in which the vector constructor
does not throw, the trace is the lifecycle open, locate, open-member,
get-info, reads, cut right after the first step that does not let the run go
on, followed by the close calls that apply; after `unzCloseCurrentFile` the
only call is `unzClose`, and after `unzClose` there is no call at all. -/
theorem lifecycle_of_alloc (alloc : Nat → Option Exception) (a : Archive)
    (path entry : String) (res : Except Exception (List Byte)) (tr : List Call)
    (halloc : alloc a.uncompressed_size = none)
    (h : extract_file alloc a path entry = some (res, tr)) :
    ∃ init last,
      (init ++ [last]) <+: lifecycle a path entry ∧
      (∀ c ∈ init, a.continues c = true) ∧ a.continues last = false ∧
      tr = (init ++ [last]) ++ closes a (init ++ [last]) ∧
      (∀ pre post, tr = pre ++ .unzCloseCurrentFile :: post → post = [.unzClose]) ∧
      (∀ pre post, tr = pre ++ .unzClose :: post → post = []) := by
  rcases extract_file_cases alloc a path entry _ h with
    ⟨h1, hp⟩ | ⟨h1, h2, hp⟩ | ⟨h1, h2, h3, hp⟩ | ⟨h1, h2, h3, h4, hp⟩ |
    ⟨h1, h2, h3, h4, e, he, hp⟩ |
    ⟨h1, h2, h3, h4, -, pos, r, rest, hrs, hpos, hr, hp⟩
  · obtain ⟨-, rfl⟩ := Prod.mk.inj hp
    have hc := closes_last [.unzOpen path] [] (by simp) (by simp) (Or.inl rfl)
    refine ⟨[], .unzOpen path, ?_, by simp, by simp [Archive.continues, h1],
      by simp [closes, h1], ?_, ?_⟩
    · exact ⟨_, rfl⟩
    · simpa using hc.1
    · simpa using hc.2
  · obtain ⟨-, rfl⟩ := Prod.mk.inj hp
    have hc := closes_last [.unzOpen path, .unzLocateFile entry] [.unzClose]
      (by simp) (by simp) (Or.inr (Or.inl rfl))
    refine ⟨[.unzOpen path], .unzLocateFile entry, ?_, by simp [Archive.continues, h1],
      by simp [Archive.continues, h2], by simp [closes, h1], ?_, ?_⟩
    · exact ⟨_, rfl⟩
    · simpa using hc.1
    · simpa using hc.2
  · obtain ⟨-, rfl⟩ := Prod.mk.inj hp
    have hc := closes_last [.unzOpen path, .unzLocateFile entry, .unzOpenCurrentFile]
      [.unzClose] (by simp) (by simp) (Or.inr (Or.inl rfl))
    refine ⟨[.unzOpen path, .unzLocateFile entry], .unzOpenCurrentFile, ?_,
      by simp [Archive.continues, h1, h2],
      by simp [Archive.continues, h3], by simp [closes, h1, h3], ?_, ?_⟩
    · exact ⟨_, rfl⟩
    · simpa using hc.1
    · simpa using hc.2
  · obtain ⟨-, rfl⟩ := Prod.mk.inj hp
    have hc := closes_last [.unzOpen path, .unzLocateFile entry, .unzOpenCurrentFile,
      .unzGetCurrentFileInfo64]
      [.unzCloseCurrentFile, .unzClose] (by simp) (by simp) (Or.inr (Or.inr rfl))
    refine ⟨[.unzOpen path, .unzLocateFile entry, .unzOpenCurrentFile],
      .unzGetCurrentFileInfo64, ?_,
      by simp [Archive.continues, h1, h2, h3],
      by simp [Archive.continues, h4], by simp [closes, h1, h3], ?_, ?_⟩
    · exact ⟨_, rfl⟩
    · simpa using hc.1
    · simpa using hc.2
  · rw [halloc] at he
    cases he
  · obtain ⟨-, rfl⟩ := Prod.mk.inj hp
    have hsplit : readCalls 0 (pos ++ [r])
        = readCalls 0 pos ++ [.unzReadCurrentFile (0 + pos.length * read_size) r] := by
      rw [readCalls_append]; rfl
    have hnc : ∀ c ∈ readCalls 0 (pos ++ [r]),
        c ≠ Call.unzCloseCurrentFile ∧ c ≠ Call.unzClose := by
      intro c hc
      obtain ⟨o, x, _, rfl⟩ := mem_readCalls hc
      simp
    have hc := closes_last ([.unzOpen path, .unzLocateFile entry, .unzOpenCurrentFile,
      .unzGetCurrentFileInfo64] ++ readCalls 0 (pos ++ [r]))
      [.unzCloseCurrentFile, .unzClose]
      (by
        intro hm
        rcases List.mem_append.1 hm with hm | hm
        · simp at hm
        · exact (hnc _ hm).1 rfl)
      (by
        intro hm
        rcases List.mem_append.1 hm with hm | hm
        · simp at hm
        · exact (hnc _ hm).2 rfl)
      (Or.inr (Or.inr rfl))
    refine ⟨[.unzOpen path, .unzLocateFile entry, .unzOpenCurrentFile,
      .unzGetCurrentFileInfo64] ++ readCalls 0 pos,
      .unzReadCurrentFile (0 + pos.length * read_size) r, ?_, ?_, ?_, ?_, ?_, ?_⟩
    · refine ⟨readCalls (0 + (pos ++ [r]).length * read_size) rest, ?_⟩
      have : pos ++ r :: rest = (pos ++ [r]) ++ rest := by simp
      rw [lifecycle, hrs, this, readCalls_append, hsplit]
      simp
    · intro c hc
      rcases List.mem_append.1 hc with hc | hc
      · simp only [List.mem_cons, List.mem_singleton, List.not_mem_nil, or_false] at hc
        rcases hc with rfl | rfl | rfl | rfl <;> simp [Archive.continues, h1, h2, h3, h4]
      · obtain ⟨o, x, hx, rfl⟩ := mem_readCalls hc
        simpa [Archive.continues] using hpos x hx
    · simpa [Archive.continues] using hr
    · rw [hsplit]
      simp [closes, h1, h3]
    · intro pre post hh
      exact hc.1 pre post (by rw [← hh])
    · intro pre post hh
      exact hc.2 pre post (by rw [← hh])

/-- C9 fails on the code. For a member whose declared uncompressed size is
`2 ^ 63`, above the `max_size()` of the vector, the constructor on line 82
throws after get-info succeeded: the trace is open, locate, open-member,
get-info and stops there. Its last call is a step that succeeded, and the
close calls that apply after it, `unzCloseCurrentFile` then `unzClose`, are
not made: the trace is not the lifecycle cut at a failing step followed by
the applicable close calls. -/
theorem extract_file_alloc_no_close :
    extract_file (vector_alloc PTRDIFF_MAX) ⟨true, 0, 0, 0, 2 ^ 63, [⟨0, []⟩]⟩
        "in.apk" "AndroidManifest.xml"
      = some (.error (.exception "cannot create std::vector larger than max_size()"),
          [.unzOpen "in.apk", .unzLocateFile "AndroidManifest.xml", .unzOpenCurrentFile,
            .unzGetCurrentFileInfo64]) ∧
    (∀ c ∈ [Call.unzOpen "in.apk", .unzLocateFile "AndroidManifest.xml",
        .unzOpenCurrentFile, .unzGetCurrentFileInfo64],
      (⟨true, 0, 0, 0, 2 ^ 63, [⟨0, []⟩]⟩ : Archive).continues c = true) ∧
    closes ⟨true, 0, 0, 0, 2 ^ 63, [⟨0, []⟩]⟩
        [.unzOpen "in.apk", .unzLocateFile "AndroidManifest.xml", .unzOpenCurrentFile,
          .unzGetCurrentFileInfo64]
      = [.unzCloseCurrentFile, .unzClose] ∧
    ¬ ∃ init last,
      (⟨true, 0, 0, 0, 2 ^ 63, [⟨0, []⟩]⟩ : Archive).continues last = false ∧
      [Call.unzOpen "in.apk", .unzLocateFile "AndroidManifest.xml", .unzOpenCurrentFile,
          .unzGetCurrentFileInfo64]
        = (init ++ [last]) ++ closes ⟨true, 0, 0, 0, 2 ^ 63, [⟨0, []⟩]⟩ (init ++ [last]) := by
  have hall : ∀ c ∈ [Call.unzOpen "in.apk", .unzLocateFile "AndroidManifest.xml",
      .unzOpenCurrentFile, .unzGetCurrentFileInfo64],
      (⟨true, 0, 0, 0, 2 ^ 63, [⟨0, []⟩]⟩ : Archive).continues c = true := by
    decide
  refine ⟨by decide, hall, by decide, ?_⟩
  rintro ⟨init, last, hlast, htr⟩
  have hmem : last ∈ [Call.unzOpen "in.apk", .unzLocateFile "AndroidManifest.xml",
      .unzOpenCurrentFile, .unzGetCurrentFileInfo64] := by
    rw [htr]; simp
  rw [hall last hmem] at hlast
  cases hlast

/-! ## Contents of the returned buffer and bounds of the stores -/

theorem chunkAnswers_cons (c : List Byte) (cs : List (List Byte)) :
    chunkAnswers (c :: cs) = ⟨(c.length : Int), c⟩ :: chunkAnswers cs := by
  simp [chunkAnswers]

theorem writeAt_append (pre suf c : List Byte) (h : c.length ≤ suf.length) :
    writeAt (pre ++ suf) pre.length c = (pre ++ c) ++ suf.drop c.length := by
  simp [writeAt, List.take_of_length_le h]

/-- When every chunk but the last fills a whole `read_size` slot, the loop
stores the chunks one after the other. -/
theorem fill_chunks (cs : List (List Byte)) :
    ∀ (pre suf : List Byte) (offset : Nat), (cs ≠ [] → offset = pre.length) →
      (∀ c ∈ cs.dropLast, c.length = read_size) →
      (cs.map List.length).sum = suf.length →
      fill offset (pre ++ suf) (chunkAnswers cs) = pre ++ cs.flatten := by
  induction cs with
  | nil =>
    intro pre suf offset _ _ hsum
    have hsuf : suf = [] := List.length_eq_zero.1 (by simpa using hsum.symm)
    simp [chunkAnswers, fill, writeAt_nil, hsuf]
  | cons c cs ih =>
    intro pre suf offset hoff hfull hsum
    have ho : offset = pre.length := hoff (by simp)
    simp only [List.map_cons, List.sum_cons] at hsum
    have hc : c.length ≤ suf.length := by omega
    rw [chunkAnswers_cons, fill, ho, writeAt_append pre suf c hc,
      ih (pre ++ c) (suf.drop c.length) (pre.length + read_size)]
    · simp
    · intro hne
      have hmem : c ∈ (c :: cs).dropLast := by
        rw [List.dropLast_cons_of_ne_nil hne]; simp
      rw [List.length_append, hfull c hmem]
    · intro x hx
      by_cases hne : cs = []
      · subst hne; simp at hx
      · exact hfull x (by rw [List.dropLast_cons_of_ne_nil hne]; simp [hx])
    · rw [List.length_drop]; omega

/-- When every chunk but the last fills a whole `read_size` slot, every chunk
is stored inside the first `n` bytes, `n` being the total length. -/
theorem readCalls_chunks_le (cs : List (List Byte)) :
    ∀ (offset n : Nat), (cs ≠ [] → offset + (cs.map List.length).sum = n) →
      (∀ c ∈ cs.dropLast, c.length = read_size) →
      ∀ o r, Call.unzReadCurrentFile o r ∈ readCalls offset (chunkAnswers cs) →
        0 < r.len → o + r.data.length ≤ n := by
  induction cs with
  | nil =>
    intro offset n _ _ o r hmem hr
    simp only [chunkAnswers, List.map_nil, List.nil_append, readCalls, List.mem_singleton,
      Call.unzReadCurrentFile.injEq] at hmem
    rw [hmem.2] at hr
    simp at hr
  | cons c cs ih =>
    intro offset n hoff hfull o r hmem hr
    have hn := hoff (by simp)
    simp only [List.map_cons, List.sum_cons] at hn
    rw [chunkAnswers_cons, readCalls, List.mem_cons] at hmem
    rcases hmem with hmem | hmem
    · simp only [Call.unzReadCurrentFile.injEq] at hmem
      rw [hmem.1, hmem.2]
      simp only
      omega
    · refine ih (offset + read_size) n ?_ ?_ o r hmem hr
      · intro hne
        have hmem : c ∈ (c :: cs).dropLast := by
          rw [List.dropLast_cons_of_ne_nil hne]; simp
        rw [← hfull c hmem]
        omega
      · intro x hx
        by_cases hne : cs = []
        · subst hne; simp at hx
        · exact hfull x (by rw [List.dropLast_cons_of_ne_nil hne]; simp [hx])

theorem chunkAnswers_pos (cs : List (List Byte)) (hlen : ∀ c ∈ cs, 1 ≤ c.length) :
    ∀ x ∈ cs.map (fun c => (⟨(c.length : Int), c⟩ : ReadAnswer)), 0 < x.len := by
  intro x hx
  obtain ⟨c, hc, rfl⟩ := List.mem_map.1 hx
  have := hlen c hc
  simp only
  omega

/-- C6, as the code has it. For every member whose reads return chunks
`c1, ..., ck`, each but the last of length exactly `read_size = 32768` and the
last of length between 1 and 32768, followed by a zero-length read, with total
length equal to the declared uncompressed size, and the buffer allocated,
`extract_file` returns the concatenation `c1 ++ ... ++ ck`, after one read per
chunk and the final zero-length read, at offsets
`0, read_size, 2 * read_size, ...`. -/
theorem extract_file_concat (alloc : Nat → Option Exception) (a : Archive)
    (path entry : String) (cs : List (List Byte)) (rest : List ReadAnswer)
    (h1 : a.unzOpen = true) (h2 : a.unzLocateFile = UNZ_OK)
    (h3 : a.unzOpenCurrentFile = UNZ_OK) (h4 : a.unzGetCurrentFileInfo64 = UNZ_OK)
    (halloc : alloc a.uncompressed_size = none)
    (hrs : a.unzReadCurrentFile = chunkAnswers cs ++ rest)
    (hlen : ∀ c ∈ cs, 1 ≤ c.length ∧ c.length ≤ read_size)
    (hfull : ∀ c ∈ cs.dropLast, c.length = read_size)
    (hsum : (cs.map List.length).sum = a.uncompressed_size) :
    extract_file alloc a path entry
      = some (.ok cs.flatten,
          [.unzOpen path, .unzLocateFile entry, .unzOpenCurrentFile,
            .unzGetCurrentFileInfo64] ++ readCalls 0 (chunkAnswers cs)
            ++ [.unzCloseCurrentFile, .unzClose]) := by
  have hrs1 : a.unzReadCurrentFile
      = cs.map (fun c => (⟨(c.length : Int), c⟩ : ReadAnswer)) ++ ⟨0, []⟩ :: rest := by
    rw [hrs, chunkAnswers]; simp
  have hpos := chunkAnswers_pos cs (fun c hc => (hlen c hc).1)
  have hfill := fill_chunks cs [] (List.replicate a.uncompressed_size 0) 0
    (fun hne => rfl) hfull (by simpa using hsum)
  rw [List.nil_append, List.nil_append] at hfill
  rw [extract_file_reads alloc a path entry _ ⟨0, []⟩ rest h1 h2 h3 h4 halloc hrs1 hpos
    (le_refl _), if_pos rfl]
  rw [show cs.map (fun c => (⟨(c.length : Int), c⟩ : ReadAnswer)) ++ [⟨0, []⟩]
    = chunkAnswers cs from rfl, hfill]

theorem extract_file_concat_witness :
    extract_file (vector_alloc PTRDIFF_MAX) twoChunkArchive "a.apk" "e"
      = some (.ok twoChunks.flatten,
          [.unzOpen "a.apk", .unzLocateFile "e", .unzOpenCurrentFile,
            .unzGetCurrentFileInfo64] ++ readCalls 0 (chunkAnswers twoChunks)
            ++ [.unzCloseCurrentFile, .unzClose]) :=
  extract_file_concat (vector_alloc PTRDIFF_MAX) twoChunkArchive "a.apk" "e"
    twoChunks [⟨-1, []⟩] rfl rfl rfl rfl (by decide) rfl
    (by
      intro c hc
      rw [twoChunks, List.mem_cons, List.mem_singleton] at hc
      rcases hc with rfl | rfl
      · rw [List.length_replicate]; decide
      · decide)
    (by
      intro c hc
      rw [twoChunks, List.dropLast_cons_of_ne_nil (by simp), List.dropLast_single,
        List.mem_singleton] at hc
      rw [hc, List.length_replicate])
    (by
      rw [twoChunks, List.map_cons, List.map_cons, List.map_nil, List.sum_cons,
        List.sum_cons, List.sum_nil, List.length_replicate]
      rfl)

/-- C6 as stated fails: two chunks of one byte each, for a member of declared
size 2. The second chunk is stored at offset `read_size`, not at offset 1, and
the returned buffer is not the concatenation of the chunks. -/
theorem extract_file_concat_counterexample :
    (∀ c ∈ [[7], [8]], 1 ≤ c.length ∧ c.length ≤ read_size) ∧
    ([[7], [8]].map List.length).sum
      = (⟨true, 0, 0, 0, 2, chunkAnswers [[7], [8]]⟩ : Archive).uncompressed_size ∧
    extract_file (vector_alloc PTRDIFF_MAX)
        ⟨true, 0, 0, 0, 2, chunkAnswers [[7], [8]]⟩ "a.apk" "e"
      = some (.ok [7, 0],
          [.unzOpen "a.apk", .unzLocateFile "e", .unzOpenCurrentFile,
            .unzGetCurrentFileInfo64, .unzReadCurrentFile 0 ⟨1, [7]⟩,
            .unzReadCurrentFile 32768 ⟨1, [8]⟩, .unzReadCurrentFile 65536 ⟨0, []⟩,
            .unzCloseCurrentFile, .unzClose]) ∧
    [7, 0] ≠ [[7], [8]].flatten := by
  decide

/-- C10, as the code has it. For every member whose reads deliver chunks
`c1, ..., ck`, each but the last of length exactly `read_size = 32768` and the
last of length between 1 and 32768, followed by a zero-length read, with total
length equal to the declared uncompressed size `n`, and the buffer allocated,
every chunk is stored inside the `n`-byte buffer: the offset of its read plus
its length is at most `n`. -/
theorem extract_file_in_bounds (alloc : Nat → Option Exception) (a : Archive)
    (path entry : String) (cs : List (List Byte)) (rest : List ReadAnswer)
    (h1 : a.unzOpen = true) (h2 : a.unzLocateFile = UNZ_OK)
    (h3 : a.unzOpenCurrentFile = UNZ_OK) (h4 : a.unzGetCurrentFileInfo64 = UNZ_OK)
    (halloc : alloc a.uncompressed_size = none)
    (hrs : a.unzReadCurrentFile = chunkAnswers cs ++ rest)
    (hlen : ∀ c ∈ cs, 1 ≤ c.length ∧ c.length ≤ read_size)
    (hfull : ∀ c ∈ cs.dropLast, c.length = read_size)
    (hsum : (cs.map List.length).sum = a.uncompressed_size) :
    ∃ res tr, extract_file alloc a path entry = some (res, tr) ∧
      ∀ o r, Call.unzReadCurrentFile o r ∈ tr → 0 < r.len →
        o + r.data.length ≤ a.uncompressed_size := by
  have hrs1 : a.unzReadCurrentFile
      = cs.map (fun c => (⟨(c.length : Int), c⟩ : ReadAnswer)) ++ ⟨0, []⟩ :: rest := by
    rw [hrs, chunkAnswers]; simp
  have hpos := chunkAnswers_pos cs (fun c hc => (hlen c hc).1)
  refine ⟨_, _, extract_file_reads alloc a path entry _ ⟨0, []⟩ rest h1 h2 h3 h4 halloc
    hrs1 hpos (le_refl _), ?_⟩
  intro o r hmem hr
  have hmem1 : Call.unzReadCurrentFile o r ∈ readCalls 0 (chunkAnswers cs) := by
    simpa [chunkAnswers] using hmem
  exact readCalls_chunks_le cs 0 a.uncompressed_size (fun _ => by omega) hfull o r hmem1 hr

theorem extract_file_in_bounds_witness :
    ∃ res tr, extract_file (vector_alloc PTRDIFF_MAX) twoChunkArchive "a.apk" "e"
        = some (res, tr) ∧
      ∀ o r, Call.unzReadCurrentFile o r ∈ tr → 0 < r.len →
        o + r.data.length ≤ twoChunkArchive.uncompressed_size :=
  extract_file_in_bounds (vector_alloc PTRDIFF_MAX) twoChunkArchive "a.apk" "e"
    twoChunks [⟨-1, []⟩] rfl rfl rfl rfl (by decide) rfl
    (by
      intro c hc
      rw [twoChunks, List.mem_cons, List.mem_singleton] at hc
      rcases hc with rfl | rfl
      · rw [List.length_replicate]; decide
      · decide)
    (by
      intro c hc
      rw [twoChunks, List.dropLast_cons_of_ne_nil (by simp), List.dropLast_single,
        List.mem_singleton] at hc
      rw [hc, List.length_replicate])
    (by
      rw [twoChunks, List.map_cons, List.map_cons, List.map_nil, List.sum_cons,
        List.sum_cons, List.sum_nil, List.length_replicate]
      rfl)

/-- C10 as stated fails: two chunks of one byte each, for a member of declared
size 2. The second read is made at offset `read_size = 32768`, and
`32768 + 1` exceeds the 2 bytes of the buffer. -/
theorem extract_file_in_bounds_counterexample :
    (∀ c ∈ [[5], [6]], 1 ≤ c.length ∧ c.length ≤ read_size) ∧
    ([[5], [6]].map List.length).sum
      = (⟨true, 0, 0, 0, 2, chunkAnswers [[5], [6]]⟩ : Archive).uncompressed_size ∧
    ∃ res tr, extract_file (vector_alloc PTRDIFF_MAX)
          ⟨true, 0, 0, 0, 2, chunkAnswers [[5], [6]]⟩ "a.apk" "e"
        = some (res, tr) ∧
      Call.unzReadCurrentFile 32768 ⟨1, [6]⟩ ∈ tr ∧
      ¬ (32768 + (⟨1, [6]⟩ : ReadAnswer).data.length
          ≤ (⟨true, 0, 0, 0, 2, chunkAnswers [[5], [6]]⟩ : Archive).uncompressed_size) :=
  ⟨by decide, by decide, .ok [5, 0],
    [.unzOpen "a.apk", .unzLocateFile "e", .unzOpenCurrentFile,
      .unzGetCurrentFileInfo64, .unzReadCurrentFile 0 ⟨1, [5]⟩,
      .unzReadCurrentFile 32768 ⟨1, [6]⟩, .unzReadCurrentFile 65536 ⟨0, []⟩,
      .unzCloseCurrentFile, .unzClose], by decide, by decide, by decide⟩

/-! ## The dispatcher -/

theorem peek_pos_data (s : IStream) : s.peek.2.pos = s.pos ∧ s.peek.2.data = s.data := by
  unfold IStream.peek
  split
  · split <;> simp
  · simp

/-- A second `peek` returns what the first one returned. -/
theorem peek_peek (s : IStream) : s.peek.2.peek.1 = s.peek.1 := by
  unfold IStream.peek
  by_cases hg : s.good = true
  · rw [if_pos hg]
    cases hd : s.data[s.pos]? with
    | some b => simp [hg, hd]
    | none => simp [IStream.good]
  · rw [if_neg hg]
    have : ¬ (({ s with failbit := true } : IStream).good = true) := by simp [IStream.good]
    simp [this]

/-- A `peek` that returns a byte leaves the stream as it was. -/
theorem peek_some (s : IStream) (b : Byte) (h : s.peek.1 = some b) : s.peek.2 = s := by
  unfold IStream.peek at h ⊢
  by_cases hg : s.good = true
  · rw [if_pos hg] at h ⊢
    cases hd : s.data[s.pos]? with
    | some c => simp
    | none => rw [hd] at h; simp at h
  · rw [if_neg hg] at h
    simp at h

/-- The first `peek` of the input stream returns its first byte, and the end
of stream when there is none. -/
theorem open_input_peek {Tree : Type} (env : Env Tree) (inpath : String) :
    (open_input env inpath).peek.1 = (open_input env inpath).data.head? ∧
    (open_input env inpath).pos = 0 := by
  unfold open_input
  split
  · cases env.file inpath with
    | some bytes => cases bytes <;> simp [IStream.peek, IStream.good]
    | none => simp [IStream.peek, IStream.good]
  · cases env.stdin <;> simp [IStream.peek, IStream.good]

theorem load_archive {Tree : Type} (env : Env Tree) (inpath entry : String)
    (h : (open_input env inpath).peek.1 = some 0x50) :
    load env inpath entry
      = match extract_file env.alloc (env.archive inpath entry) inpath entry with
        | none => none
        | some (.error e, calls) => some (.error e, [.extract_file inpath entry calls])
        | some (.ok content, calls) =>
          some (env.read_axml ⟨content, 0, false, false⟩,
            [.extract_file inpath entry calls, .read_axml ⟨content, 0, false, false⟩]) := by
  unfold load
  rw [if_pos h]

theorem load_axml {Tree : Type} (env : Env Tree) (inpath entry : String)
    (h : (open_input env inpath).peek.1 = some 0x03) :
    load env inpath entry
      = some (env.read_axml (open_input env inpath), [.read_axml (open_input env inpath)]) := by
  unfold load
  have h1 : ¬ ((open_input env inpath).peek.1 = some 0x50) := by rw [h]; decide
  have h2 : (open_input env inpath).peek.2 = open_input env inpath := peek_some _ _ h
  rw [if_neg h1, h2, if_pos h, h2]

theorem load_xml {Tree : Type} (env : Env Tree) (inpath entry : String)
    (h1 : (open_input env inpath).peek.1 ≠ some 0x50)
    (h2 : (open_input env inpath).peek.1 ≠ some 0x03) :
    load env inpath entry
      = some (env.read_xml (open_input env inpath).peek.2.peek.2 trim_whitespace,
          [.read_xml (open_input env inpath).peek.2.peek.2 trim_whitespace]) := by
  unfold load
  have h3 : ¬ ((open_input env inpath).peek.2.peek.1 = some 0x03) := by
    rw [peek_peek]; exact h2
  rw [if_neg h1, if_neg h3]

theorem write_xml_isWrite {Tree : Type} (env : Env Tree) (path : String) (pt : Tree) :
    ∀ ev ∈ (write_xml env path pt).2, ev.isWrite = true := by
  unfold write_xml
  split <;> simp [Event.isWrite]

/-- The two branches of `process_file` that read the input stream itself. -/
theorem process_file_routes_aux {Tree : Type} (env : Env Tree)
    (inpath entry outpath : String) :
    ((open_input env inpath).peek.1 = some 0x03 →
      ∃ res rest, process_file env inpath entry outpath
          = some (res, .read_axml (open_input env inpath) :: rest) ∧
        ∀ ev ∈ rest, ev.isWrite = true) ∧
    ((open_input env inpath).peek.1 ≠ some 0x50 →
      (open_input env inpath).peek.1 ≠ some 0x03 →
      ∃ res is rest, process_file env inpath entry outpath
          = some (res, .read_xml is trim_whitespace :: rest) ∧
        is.data = (open_input env inpath).data ∧ is.pos = (open_input env inpath).pos ∧
        (∀ ev ∈ rest, ev.isWrite = true) ∧
        (∀ e, env.read_xml is trim_whitespace = .error e → res = .error e ∧ rest = [])) := by
  refine ⟨?_, ?_⟩
  · intro h
    unfold process_file
    rw [load_axml env inpath entry h]
    cases hr : env.read_axml (open_input env inpath) with
    | error e => exact ⟨.error e, [], rfl, by simp⟩
    | ok pt =>
      exact ⟨(write_xml env outpath pt).1, (write_xml env outpath pt).2, rfl,
        write_xml_isWrite _ _ _⟩
  · intro h1 h2
    unfold process_file
    rw [load_xml env inpath entry h1 h2]
    have hpd : (open_input env inpath).peek.2.peek.2.data = (open_input env inpath).data ∧
        (open_input env inpath).peek.2.peek.2.pos = (open_input env inpath).pos := by
      have a1 := peek_pos_data (open_input env inpath)
      have a2 := peek_pos_data (open_input env inpath).peek.2
      exact ⟨a2.2.trans a1.2, a2.1.trans a1.1⟩
    cases hr : env.read_xml (open_input env inpath).peek.2.peek.2 trim_whitespace with
    | error e =>
      refine ⟨.error e, _, [], rfl, hpd.1, hpd.2, by simp, ?_⟩
      intro e2 he2
      rw [hr] at he2
      exact ⟨by rw [Except.error.inj he2], rfl⟩
    | ok pt =>
      refine ⟨(write_xml env outpath pt).1, _, (write_xml env outpath pt).2, rfl,
        hpd.1, hpd.2, write_xml_isWrite _ _ _, ?_⟩
      intro e2 he2
      rw [hr] at he2
      cases he2

/-- C2. `process_file` routes on the result of peeking the first byte. If it
is `0x50` it calls `extract_file(inpath, entry)` and, when a buffer is
returned, hands that buffer as a fresh stream to `read_axml`; if it is `0x03`
it hands the input stream to `read_axml`; for every other byte and for the end
of stream it hands the input stream, its position and data unchanged, to
`read_xml` with `trim_whitespace`, and a failure of that parser is the failure
of `process_file`. In each case the only other events are those of the output
writer, so exactly one branch is taken. -/
theorem process_file_routes {Tree : Type} (env : Env Tree) (inpath entry outpath : String) :
    ((open_input env inpath).peek.1 = some 0x50 →
      (process_file env inpath entry outpath = none ↔
        extract_file env.alloc (env.archive inpath entry) inpath entry = none) ∧
      ∀ res evs, process_file env inpath entry outpath = some (res, evs) →
        ∃ r calls, extract_file env.alloc (env.archive inpath entry) inpath entry = some (r, calls) ∧
          ((∃ e, r = .error e ∧ res = .error e ∧ evs = [.extract_file inpath entry calls]) ∨
           (∃ content rest, r = .ok content ∧
              evs = .extract_file inpath entry calls
                :: .read_axml ⟨content, 0, false, false⟩ :: rest ∧
              ∀ ev ∈ rest, ev.isWrite = true))) ∧
    ((open_input env inpath).peek.1 = some 0x03 →
      ∃ res rest, process_file env inpath entry outpath
          = some (res, .read_axml (open_input env inpath) :: rest) ∧
        ∀ ev ∈ rest, ev.isWrite = true) ∧
    ((open_input env inpath).peek.1 ≠ some 0x50 →
      (open_input env inpath).peek.1 ≠ some 0x03 →
      ∃ res is rest, process_file env inpath entry outpath
          = some (res, .read_xml is trim_whitespace :: rest) ∧
        is.data = (open_input env inpath).data ∧ is.pos = (open_input env inpath).pos ∧
        (∀ ev ∈ rest, ev.isWrite = true) ∧
        (∀ e, env.read_xml is trim_whitespace = .error e → res = .error e ∧ rest = [])) := by
  refine ⟨?_, ?_, ?_⟩
  · intro h
    constructor
    · unfold process_file
      rw [load_archive env inpath entry h]
      cases hx : extract_file env.alloc (env.archive inpath entry) inpath entry with
      | none => simp
      | some p =>
        obtain ⟨r, calls⟩ := p
        cases r with
        | error e => simp
        | ok content =>
          cases hr : env.read_axml ⟨content, 0, false, false⟩ <;> simp [hr]
    intro res evs hp
    unfold process_file at hp
    rw [load_archive env inpath entry h] at hp
    cases hx : extract_file env.alloc (env.archive inpath entry) inpath entry with
    | none => simp [hx] at hp
    | some p =>
      obtain ⟨r, calls⟩ := p
      refine ⟨r, calls, rfl, ?_⟩
      cases r with
      | error e =>
        left
        simp only [hx, Option.some.injEq, Prod.mk.injEq] at hp
        exact ⟨e, rfl, hp.1.symm, hp.2.symm⟩
      | ok content =>
        right
        simp only [hx] at hp
        cases hr : env.read_axml ⟨content, 0, false, false⟩ with
        | error e =>
          simp only [hr, Option.some.injEq, Prod.mk.injEq] at hp
          exact ⟨content, [], rfl, hp.2.symm, by simp⟩
        | ok pt =>
          simp only [hr, Option.some.injEq, Prod.mk.injEq] at hp
          refine ⟨content, (write_xml env outpath pt).2, rfl, ?_, write_xml_isWrite _ _ _⟩
          rw [← hp.2]
          simp
  · exact (process_file_routes_aux env inpath entry outpath).1
  · exact (process_file_routes_aux env inpath entry outpath).2

theorem process_file_routes_witness :
    ∃ res is rest, process_file sampleEnv "-" "AndroidManifest.xml" "out.xml"
        = some (res, .read_xml is trim_whitespace :: rest) ∧
      is.data = (open_input sampleEnv "-").data ∧
      is.pos = (open_input sampleEnv "-").pos ∧
      (∀ ev ∈ rest, ev.isWrite = true) ∧
      (∀ e, sampleEnv.read_xml is trim_whitespace = .error e → res = .error e ∧ rest = []) :=
  (process_file_routes sampleEnv "-" "AndroidManifest.xml" "out.xml").2.2
    (by decide) (by decide)

/-! ## A member that is not in the archive -/

/-- C4. When the archive opens and `unzLocateFile` does not return `UNZ_OK`,
`extract_file` throws the error `entry + " is not found in APK"` and returns no
buffer; its trace is open, locate, close: the archive handle is closed once and
the member cursor is neither opened nor closed. When `process_file` reaches
this through the archive branch it ends with that error after the call of
`extract_file` alone: the output writer is not invoked and no output file is
opened. -/
theorem extract_file_not_found (a : Archive) (path entry : String)
    (h1 : a.unzOpen = true) (h2 : a.unzLocateFile ≠ UNZ_OK) :
    (∀ alloc : Nat → Option Exception, extract_file alloc a path entry
      = some (.error (.runtime_error (entry ++ " is not found in APK")),
          [.unzOpen path, .unzLocateFile entry, .unzClose])) ∧
    ∀ (Tree : Type) (env : Env Tree) (outpath : String),
      env.archive path entry = a → (open_input env path).peek.1 = some 0x50 →
      process_file env path entry outpath
        = some (.error (.runtime_error (entry ++ " is not found in APK")),
            [.extract_file path entry [.unzOpen path, .unzLocateFile entry, .unzClose]]) := by
  have hx : ∀ alloc : Nat → Option Exception, extract_file alloc a path entry
      = some (.error (.runtime_error (entry ++ " is not found in APK")),
          [.unzOpen path, .unzLocateFile entry, .unzClose]) := by
    intro alloc
    unfold extract_file
    rw [if_neg (by simp [h1]), if_pos h2]
  refine ⟨hx, ?_⟩
  intro Tree env outpath ha hp
  unfold process_file
  rw [load_archive env path entry hp, ha, hx]

theorem extract_file_not_found_witness :
    extract_file (vector_alloc PTRDIFF_MAX) ⟨true, -100, 0, 0, 0, []⟩ "in.apk" "entry.xml"
      = some (.error (.runtime_error ("entry.xml" ++ " is not found in APK")),
          [.unzOpen "in.apk", .unzLocateFile "entry.xml", .unzClose]) ∧
    process_file sampleEnv "in.apk" "entry.xml" "out.xml"
      = some (.error (.runtime_error ("entry.xml" ++ " is not found in APK")),
          [.extract_file "in.apk" "entry.xml"
            [.unzOpen "in.apk", .unzLocateFile "entry.xml", .unzClose]]) :=
  ⟨(extract_file_not_found ⟨true, -100, 0, 0, 0, []⟩ "in.apk" "entry.xml" rfl
      (by decide)).1 (vector_alloc PTRDIFF_MAX),
    (extract_file_not_found ⟨true, -100, 0, 0, 0, []⟩ "in.apk" "entry.xml" rfl
      (by decide)).2 Nat sampleEnv "out.xml" rfl (by decide)⟩

/-! ## Classification does not consume input -/

/-- C7. For every input `b` whose first byte is not `'P'` (an empty input
included), the two `peek` calls of the dispatcher leave the read position at
0, and the stream handed to the consumer (`read_axml` when the first byte is
`0x03`, `read_xml` otherwise) has the bytes `b` and is positioned at offset 0:
the consumer sees exactly `b`, first byte included. -/
theorem process_file_preserves_input {Tree : Type} (env : Env Tree)
    (inpath entry outpath : String) (b : List Byte)
    (hb : (open_input env inpath).data = b) (hP : b.head? ≠ some 0x50) :
    (open_input env inpath).peek.2.pos = 0 ∧
    (open_input env inpath).peek.2.peek.2.pos = 0 ∧
    ∃ res is rest, process_file env inpath entry outpath
        = some (res, (if b.head? = some 0x03 then Event.read_axml is
                      else Event.read_xml is trim_whitespace) :: rest) ∧
      is.data = b ∧ is.pos = 0 := by
  obtain ⟨hpk, hpos⟩ := open_input_peek env inpath
  rw [hb] at hpk
  have a1 := peek_pos_data (open_input env inpath)
  have a2 := peek_pos_data (open_input env inpath).peek.2
  have h1 : (open_input env inpath).peek.1 ≠ some 0x50 := by rw [hpk]; exact hP
  refine ⟨a1.1.trans hpos, a2.1.trans (a1.1.trans hpos), ?_⟩
  by_cases h3 : b.head? = some 0x03
  · have h3p : (open_input env inpath).peek.1 = some 0x03 := by rw [hpk]; exact h3
    obtain ⟨res, rest, hproc, -⟩ := (process_file_routes_aux env inpath entry outpath).1 h3p
    exact ⟨res, open_input env inpath, rest, by rw [if_pos h3]; exact hproc, hb, hpos⟩
  · have h3p : (open_input env inpath).peek.1 ≠ some 0x03 := by rw [hpk]; exact h3
    obtain ⟨res, is, rest, hproc, hd, hps, -⟩ :=
      (process_file_routes_aux env inpath entry outpath).2 h1 h3p
    exact ⟨res, is, rest, by rw [if_neg h3]; exact hproc, hd.trans hb, hps.trans hpos⟩

theorem process_file_preserves_input_witness :
    (open_input sampleEnv "in.xml").peek.2.pos = 0 ∧
    (open_input sampleEnv "in.xml").peek.2.peek.2.pos = 0 ∧
    ∃ res is rest, process_file sampleEnv "in.xml" "AndroidManifest.xml" ""
        = some (res, (if [60, 97, 47, 62].head? = some 0x03 then Event.read_axml is
                      else Event.read_xml is trim_whitespace) :: rest) ∧
      is.data = [60, 97, 47, 62] ∧ is.pos = 0 :=
  process_file_preserves_input sampleEnv "in.xml" "AndroidManifest.xml" ""
    [60, 97, 47, 62] (by decide) (by decide)

/-! ## The top-level handler -/

/-- C8, as the code has it. Every error that reaches `main`, from the
command-line parsing or from `process_file`, makes `main` return 1 and write
one line to the error stream: `"error: failed to open the input file"` when
the error is a `std::ios::failure`, whatever its message, and `"error: "`
followed by the message for every other error. `main` returns 0 when help or
version is requested and when `process_file` completes without error. -/
theorem main_exit_code {Tree : Type} (env : Env Tree) (desc AXMLDEC_VERSION : String)
    (parsed : Except Exception variables_map) :
    (∀ e, reaches_main env parsed e →
      ∃ evs, main env desc AXMLDEC_VERSION parsed
        = some (⟨1, "", match e with
                        | .ios_failure _ => "error: failed to open the input file\n"
                        | _ => "error: " ++ e.what ++ "\n"⟩, evs)) ∧
    (∀ vmap, parsed = .ok vmap → vmap.help = true →
      main env desc AXMLDEC_VERSION parsed = some (⟨0, desc, ""⟩, [])) ∧
    (∀ vmap, parsed = .ok vmap → vmap.help = false → vmap.version = true →
      main env desc AXMLDEC_VERSION parsed = some (⟨0, AXMLDEC_VERSION ++ "\n", ""⟩, [])) ∧
    (∀ vmap evs, parsed = .ok vmap → vmap.help = false → vmap.version = false →
      process_file env (vmap.input.getD "") (vmap.entry.getD "AndroidManifest.xml")
        (vmap.output.getD "") = some (.ok (), evs) →
      main env desc AXMLDEC_VERSION parsed = some (⟨0, "", ""⟩, evs)) := by
  refine ⟨?_, ?_, ?_, ?_⟩
  · intro e he
    rcases he with he | ⟨vmap, evs, hv, hh, hver, hproc⟩
    · subst he
      refine ⟨[], ?_⟩
      cases e <;> rfl
    · subst hv
      refine ⟨evs, ?_⟩
      simp only [main, hh, hver, hproc]
      cases e <;> rfl
  · intro vmap hv hh
    subst hv
    simp [main, hh]
  · intro vmap hv hh hver
    subst hv
    simp [main, hh, hver]
  · intro vmap evs hv hh hver hproc
    subst hv
    simp [main, hh, hver, hproc]

theorem main_exit_code_witness :
    ∃ evs, main sampleEnv "usage" "1.2.0" (.ok ⟨false, false, some "in.apk", none, none⟩)
      = some (⟨1, "", match Exception.runtime_error "AndroidManifest.xml is not found in APK" with
                      | .ios_failure _ => "error: failed to open the input file\n"
                      | _ => "error: "
                          ++ (Exception.runtime_error
                                "AndroidManifest.xml is not found in APK").what ++ "\n"⟩, evs) :=
  (main_exit_code sampleEnv "usage" "1.2.0"
      (.ok ⟨false, false, some "in.apk", none, none⟩)).1
    (.runtime_error "AndroidManifest.xml is not found in APK")
    (Or.inr ⟨⟨false, false, some "in.apk", none, none⟩,
      [.extract_file "in.apk" "AndroidManifest.xml"
        [.unzOpen "in.apk", .unzLocateFile "AndroidManifest.xml", .unzClose]],
      rfl, rfl, rfl, by decide⟩)

/-- C8 as stated fails for an error of kind `std::ios::failure`: the decoder
throws one with message `"basic_ios::clear"` on the binary document `in.axml`;
`main` returns 1 but writes `"error: failed to open the input file"`, not
`"error: "` followed by that message. -/
theorem main_exit_code_counterexample :
    process_file sampleEnv "in.axml" "AndroidManifest.xml" ""
      = some (.error (.ios_failure "basic_ios::clear"),
          [.read_axml ⟨[3, 0, 8, 0], 0, false, false⟩]) ∧
    main sampleEnv "usage" "1.2.0" (.ok ⟨false, false, some "in.axml", none, none⟩)
      = some (⟨1, "", "error: failed to open the input file\n"⟩,
          [.read_axml ⟨[3, 0, 8, 0], 0, false, false⟩]) ∧
    "error: failed to open the input file\n"
      ≠ "error: " ++ (Exception.ios_failure "basic_ios::clear").what ++ "\n" := by
  decide

end Axmldec
